import Mathlib

/-
Verification of the QueueCTL job queue core: a shallow embedding of the
job entity (job.py), the storage engine (storage.py) and the worker loop
(worker.py), together with proofs about the acquisition protocol, the
retry and backoff state machine, and the dead letter queue operations.

Timestamps are modelled as natural numbers ordered by the usual order;
the code stores ISO-8601 UTC strings and compares them with the SQL
order, which agrees with the time order for the format the code writes.
The SQLite jobs table is modelled as a list of rows; the primary key
constraint appears as a uniqueness hypothesis where a proof needs it.
-/

namespace QueueCTL

/-- The five job states of the state machine (stored as TEXT in SQLite). -/
inductive JobState where
  | pending
  | processing
  | completed
  | failed
  | dead
deriving DecidableEq, Repr

/-- One row of the jobs table (storage.py, CREATE TABLE jobs). -/
structure JobRec where
  id : String
  command : String
  state : JobState
  attempts : Nat
  max_retries : Nat
  next_retry_at : Option Nat
  created_at : Nat
  updated_at : Nat
  completed_at : Option Nat
  error_message : Option String
deriving DecidableEq, Repr

/-! ## Job entity (job.py) -/

/-- Job.calculate_next_retry: now plus backoff_base to the power attempts,
in seconds, no cap and no jitter. -/
def calculate_next_retry (now attempts backoff_base : Nat) : Nat :=
  now + backoff_base ^ attempts

/-- Job.should_retry: attempts strictly below max_retries. -/
def should_retry (attempts max_retries : Nat) : Bool :=
  decide (attempts < max_retries)

/-- Job.mark_for_retry: increment attempts; if should_retry then state
failed with next_retry_at from the backoff formula at the post-increment
attempt count, else state dead with next_retry_at cleared. -/
def mark_for_retry (j : JobRec) (now backoff_base : Nat) : JobRec :=
  let a := j.attempts + 1
  if should_retry a j.max_retries then
    { j with attempts := a, state := JobState.failed,
             next_retry_at := some (calculate_next_retry now a backoff_base) }
  else
    { j with attempts := a, state := JobState.dead, next_retry_at := none }

/-- Job.mark_completed: state completed and completed_at set; no other
field is touched (in particular attempts and next_retry_at are kept). -/
def mark_completed (j : JobRec) (now : Nat) : JobRec :=
  { j with state := JobState.completed, completed_at := some now }

/-- Job.mark_failed: record the error message, then mark_for_retry. -/
def mark_failed (j : JobRec) (error_message : String) (now backoff_base : Nat) : JobRec :=
  mark_for_retry { j with error_message := some error_message } now backoff_base

/-! ## Command execution (Job.execute, job.py)

The behaviour of running a command through subprocess.run is an oracle:
either the process terminates with a return code and captured output
after some runtime, or it never terminates, or subprocess.run raises. -/

/-- Possible behaviours of one subprocess.run invocation of a command. -/
inductive RunResult where
  | completes (runtime : Nat) (returncode : Int) (stdout stderr : String)
  | hangs
  | raisesNotFound
  | raisesOther (msg : String)
deriving DecidableEq

/-- The distinct failure outcomes Job.execute can report. -/
inductive ExecErr where
  | timedOut (t : Nat)
  | notFound (command : String)
  | exitFailure (msg : String)
  | other (msg : String)
deriving DecidableEq

/-- Error message for a nonzero exit: stderr if nonempty, else stdout if
nonempty, else a generic exit code message. -/
def exitMsg (returncode : Int) (stdout stderr : String) : String :=
  if stderr ≠ "" then stderr
  else if stdout ≠ "" then stdout
  else "Command failed with exit code " ++ toString returncode

/-- Outcome of a terminated process: success on return code zero, else an
exit failure carrying the message from exitMsg. -/
def completedOutcome (returncode : Int) (stdout stderr : String) : Option ExecErr :=
  if returncode = 0 then none
  else some (ExecErr.exitFailure (exitMsg returncode stdout stderr))

/-- The Python truthiness test on the timeout argument: None and 0 are
falsy, any other number selects the bounded subprocess.run call. -/
def timeoutTruthy : Option Nat → Bool
  | none => false
  | some t => decide (t ≠ 0)

/-- The message Job.execute builds for each failure outcome. -/
def execErrMsg : ExecErr → String
  | ExecErr.timedOut t => "Command timed out after " ++ toString t ++ " seconds"
  | ExecErr.notFound c => "Command not found: " ++ c
  | ExecErr.exitFailure m => m
  | ExecErr.other m => m

/-- Job.execute: with a truthy timeout the command is run bounded and a
run that hangs or outlives the bound reports a timeout error; without a
timeout the call blocks for as long as the command runs, so a command
that never terminates gives no result at all (outer none). The inner
option is the error message slot of the returned pair: inner none is
success (return code zero). -/
def execute (command : String) (b : RunResult) (timeout : Option Nat) :
    Option (Option ExecErr) :=
  if timeoutTruthy timeout then
    match b with
    | RunResult.completes runtime rc out errout =>
        if timeout.getD 0 < runtime then some (some (ExecErr.timedOut (timeout.getD 0)))
        else some (completedOutcome rc out errout)
    | RunResult.hangs => some (some (ExecErr.timedOut (timeout.getD 0)))
    | RunResult.raisesNotFound => some (some (ExecErr.notFound command))
    | RunResult.raisesOther m => some (some (ExecErr.other m))
  else
    match b with
    | RunResult.completes _ rc out errout => some (completedOutcome rc out errout)
    | RunResult.hangs => none
    | RunResult.raisesNotFound => some (some (ExecErr.notFound command))
    | RunResult.raisesOther m => some (some (ExecErr.other m))

/-! ## Storage engine (storage.py)

The jobs table is a list of rows; each SQL statement is transcribed as a
list operation over it. -/

/-- The row JobStorage.create_job inserts: state pending, attempts 0,
created_at and updated_at set to the insertion time, the nullable
columns unset. -/
def newJob (id command : String) (max_retries now : Nat) : JobRec :=
  { id := id, command := command, state := JobState.pending, attempts := 0,
    max_retries := max_retries, next_retry_at := none,
    created_at := now, updated_at := now,
    completed_at := none, error_message := none }

/-- JobStorage.create_job: the INSERT fails on a duplicate primary key,
otherwise the new pending row is added. -/
def create_job (db : List JobRec) (id command : String) (max_retries now : Nat) :
    Option (List JobRec) :=
  if db.any (fun r => r.id == id) then none
  else some (db ++ [newJob id command max_retries now])

/-- JobStorage.get_job: the row with the given id, if any. -/
def get_job (db : List JobRec) (id : String) : Option JobRec :=
  (db.filter (fun r => r.id == id)).head?

/-- The state disjunct shared by the acquisition UPDATE and the ready
query: state is pending or failed. -/
def stateAcquirable : JobState → Bool
  | JobState.pending => true
  | JobState.failed => true
  | _ => false

/-- The retry-eligibility disjunct: next_retry_at IS NULL OR
next_retry_at is at most now. -/
def retryElapsedB (next_retry_at : Option Nat) (now : Nat) : Bool :=
  match next_retry_at with
  | none => true
  | some t => decide (t ≤ now)

/-- The WHERE condition both acquire_job and get_pending_jobs use on a
row, without the id part. -/
def readyRowB (now : Nat) (r : JobRec) : Bool :=
  stateAcquirable r.state && retryElapsedB r.next_retry_at now

/-- JobStorage.acquire_job: one conditional UPDATE setting state to
processing on the row with the given id while it is still pending or
failed and retry-eligible; the returned flag is rowcount positive. No
other column is assigned by the UPDATE. -/
def acquire_job (db : List JobRec) (id : String) (now : Nat) :
    Bool × List JobRec :=
  (db.any (fun r => r.id == id && readyRowB now r),
   db.map (fun r =>
     if r.id == id && readyRowB now r then { r with state := JobState.processing }
     else r))

/-- JobStorage.update_job: patch the columns of the row with the given id
and force updated_at to the current time; the caller-supplied fields are
the patch function (the worker passes the whole job dictionary). -/
def update_job (db : List JobRec) (id : String) (patch : JobRec → JobRec) (now : Nat) :
    List JobRec :=
  db.map (fun r => if r.id == id then { patch r with updated_at := now } else r)

/-- Order on rows used by the ready query: created_at ascending. -/
def createdLe (a b : JobRec) : Prop := a.created_at ≤ b.created_at

instance : DecidableRel createdLe := fun a b => Nat.decLe a.created_at b.created_at

instance : IsTotal JobRec createdLe := ⟨fun a b => Nat.le_total a.created_at b.created_at⟩

instance : IsTrans JobRec createdLe := ⟨fun _ _ _ h h2 => Nat.le_trans h h2⟩

/-- JobStorage.get_pending_jobs: rows that are pending or failed and
retry-eligible, ordered by created_at ascending, truncated to the limit. -/
def get_pending_jobs (db : List JobRec) (limit now : Nat) : List JobRec :=
  (List.insertionSort createdLe (db.filter (readyRowB now))).take limit

/-- The SET clause of JobStorage.reset_job_for_retry: back to pending
with attempts 0, next_retry_at and error_message cleared, updated_at
refreshed. -/
def resetRow (r : JobRec) (now : Nat) : JobRec :=
  { r with state := JobState.pending, attempts := 0, next_retry_at := none,
           error_message := none, updated_at := now }

/-- The UPDATE of JobStorage.reset_job_for_retry: applies resetRow to the
row with the given id only while its state is dead. -/
def reset_db (db : List JobRec) (id : String) (now : Nat) : List JobRec :=
  db.map (fun r =>
    if r.id == id && decide (r.state = JobState.dead) then resetRow r now else r)

/-- JobStorage.reset_job_for_retry: run the guarded UPDATE, then return
get_job on the same id (so an existing row is returned whether or not the
UPDATE touched it, and none only for an unknown id). -/
def reset_job_for_retry (db : List JobRec) (id : String) (now : Nat) :
    Option JobRec × List JobRec :=
  (get_job (reset_db db id now) id, reset_db db id now)

/-! ## Worker loop (worker.py, WorkerManager._worker_process)

One iteration of the loop: poll get_pending_jobs with limit 1; if empty
do nothing; else try to acquire the head; on acquisition run the command
with no timeout and write the outcome row through update_job, built from
the snapshot read by the poll. A command that never terminates leaves the
iteration stuck after the acquisition, so the table keeps the acquired
state. -/

/-- One worker loop iteration over the jobs table, with the behaviour of
each command given by an oracle. -/
def worker_iteration (behav : String → RunResult) (backoff_base now : Nat)
    (db : List JobRec) : List JobRec :=
  match get_pending_jobs db 1 now with
  | [] => db
  | jd :: _ =>
    let acq := acquire_job db jd.id now
    if acq.1 then
      match execute jd.command (behav jd.command) none with
      | none => acq.2
      | some none => update_job acq.2 jd.id (fun _ => mark_completed jd now) now
      | some (some e) =>
          update_job acq.2 jd.id (fun _ => mark_failed jd (execErrMsg e) now backoff_base) now
    else acq.2

/-! ## System model

Workers are independent processes coordinating only through the jobs
table. A system state is the table plus the set of outstanding
acquisitions: a worker that succeeded in acquire_job holds the snapshot
row it had read before acquiring (the worker builds the Job object from
that earlier read, not from the row after the UPDATE) until it writes the
outcome back. The step relation over-approximates the worker loop: a
worker may attempt acquisition of any id with any snapshot carrying that
id, which includes every stale read the real poll can produce. -/

/-- A system state: the jobs table and, per worker ordinal, the snapshot
row of the job that worker has acquired and not yet finished. -/
structure Sys where
  db : List JobRec
  holders : List (Nat × JobRec)
deriving DecidableEq

/-- The row the worker writes back after executing: mark_completed on
success, mark_failed with the reported message on failure. -/
def outcomeRec (s : JobRec) (res : Option ExecErr) (now backoff_base : Nat) : JobRec :=
  match res with
  | none => mark_completed s now
  | some e => mark_failed s (execErrMsg e) now backoff_base

/-- The core operations as atomic events on a system state: enqueue
through create_job, acquisition through acquire_job, the outcome write of
a holding worker through update_job, and the DLQ reset through the
guarded UPDATE of reset_job_for_retry. -/
inductive SStep (backoff_base : Nat) : Sys → Sys → Prop where
  | create (σ : Sys) (id command : String) (max_retries now : Nat) (db' : List JobRec)
      (hok : create_job σ.db id command max_retries now = some db') :
      SStep backoff_base σ ⟨db', σ.holders⟩
  | acquire (σ : Sys) (w : Nat) (s : JobRec) (now : Nat)
      (hfree : ∀ p ∈ σ.holders, p.1 ≠ w)
      (hok : (acquire_job σ.db s.id now).1 = true) :
      SStep backoff_base σ ⟨(acquire_job σ.db s.id now).2, (w, s) :: σ.holders⟩
  | finish (σ : Sys) (w : Nat) (s : JobRec) (res : Option ExecErr) (now : Nat)
      (hheld : (w, s) ∈ σ.holders) :
      SStep backoff_base σ
        ⟨update_job σ.db s.id (fun _ => outcomeRec s res now backoff_base) now,
         σ.holders.filter (fun p => decide (p.1 ≠ w))⟩
  | reset (σ : Sys) (id : String) (now : Nat) :
      SStep backoff_base σ ⟨reset_db σ.db id now, σ.holders⟩

/-- The steps the lifecycle itself performs, without the manual DLQ
reset: enqueue, acquisition and outcome write. -/
inductive CoreStep (backoff_base : Nat) : Sys → Sys → Prop where
  | create (σ : Sys) (id command : String) (max_retries now : Nat) (db' : List JobRec)
      (hok : create_job σ.db id command max_retries now = some db') :
      CoreStep backoff_base σ ⟨db', σ.holders⟩
  | acquire (σ : Sys) (w : Nat) (s : JobRec) (now : Nat)
      (hfree : ∀ p ∈ σ.holders, p.1 ≠ w)
      (hok : (acquire_job σ.db s.id now).1 = true) :
      CoreStep backoff_base σ ⟨(acquire_job σ.db s.id now).2, (w, s) :: σ.holders⟩
  | finish (σ : Sys) (w : Nat) (s : JobRec) (res : Option ExecErr) (now : Nat)
      (hheld : (w, s) ∈ σ.holders) :
      CoreStep backoff_base σ
        ⟨update_job σ.db s.id (fun _ => outcomeRec s res now backoff_base) now,
         σ.holders.filter (fun p => decide (p.1 ≠ w))⟩

/-- The empty system: no jobs, no outstanding acquisitions. -/
def initSys : Sys := ⟨[], []⟩

/-- A system state reachable from the empty system through the core
operations. -/
def Reach (backoff_base : Nat) (σ : Sys) : Prop :=
  Relation.ReflTransGen (SStep backoff_base) initSys σ

/-! ## Spec-side predicates

Propositional readings of the claims about the readiness and acquisition
condition, stated in the words of the spec and related to the executable
conditions by proof. -/

/-- Spec wording: the state is still pending or failed. -/
def StateReady (st : JobState) : Prop := st = JobState.pending ∨ st = JobState.failed

/-- Spec wording: next_retry_at is null or not after the current time. -/
def RetryElapsed (next_retry_at : Option Nat) (now : Nat) : Prop :=
  next_retry_at = none ∨ ∃ t, next_retry_at = some t ∧ t ≤ now

/-- Spec wording of the acquisition and readiness predicate on a row. -/
def AcquireEligible (now : Nat) (r : JobRec) : Prop :=
  StateReady r.state ∧ RetryElapsed r.next_retry_at now

instance (st : JobState) : Decidable (StateReady st) := by
  unfold StateReady; infer_instance

instance (nr : Option Nat) (now : Nat) : Decidable (RetryElapsed nr now) := by
  unfold RetryElapsed
  cases nr with
  | none => exact Decidable.isTrue (Or.inl rfl)
  | some t =>
    by_cases h : t ≤ now
    · exact Decidable.isTrue (Or.inr ⟨t, rfl, h⟩)
    · refine Decidable.isFalse ?_
      rintro (hc | ⟨u, hu, hle⟩)
      · exact Option.noConfusion hc
      · cases Option.some.injEq t u ▸ hu with
        | refl => exact h hle

instance (now : Nat) (r : JobRec) : Decidable (AcquireEligible now r) := by
  unfold AcquireEligible; infer_instance

/-- Invariant on a single row: a failed row carries a retry time, and a
pending or dead row carries none. -/
def nrOk (r : JobRec) : Prop :=
  (r.state = JobState.failed → r.next_retry_at ≠ none) ∧
  ((r.state = JobState.pending ∨ r.state = JobState.dead) → r.next_retry_at = none)

/-- The primary key constraint of the jobs table: ids are pairwise
distinct. -/
def uniqueIds (db : List JobRec) : Prop := (db.map (fun r => r.id)).Nodup

instance (db : List JobRec) : Decidable (uniqueIds db) := by
  unfold uniqueIds
  infer_instance

/-- A holder entry is backed by a row with the held id in processing
state. -/
def holderOk (db : List JobRec) (p : Nat × JobRec) : Prop :=
  ∃ r ∈ db, r.id = p.2.id ∧ r.state = JobState.processing

/-- The system invariant: unique ids, every outstanding acquisition is
backed by a processing row, no two workers hold the same job id, and
every row satisfies the retry-time invariant. -/
def Inv (σ : Sys) : Prop :=
  uniqueIds σ.db ∧
  (∀ p ∈ σ.holders, holderOk σ.db p) ∧
  (∀ p ∈ σ.holders, ∀ q ∈ σ.holders, p.2.id = q.2.id → p.1 = q.1) ∧
  (∀ r ∈ σ.db, nrOk r)

/-! ## Concrete scenarios

Small closed instances used to exhibit reachable states and concrete
runs of the worker loop. -/

/-- A behaviour oracle where every command exits with code 1 and the
text boom on standard error. -/
def alwaysFails : String → RunResult := fun _ => RunResult.completes 1 1 "" "boom"

/-- Scenario row: a fresh job with two retries allowed, created at time
zero. -/
def trcJ : JobRec := newJob "j" "boom" 2 0

/-- Scenario: the table after enqueueing trcJ. -/
def trc1 : Sys := ⟨[trcJ], []⟩

/-- Scenario: worker 1 has acquired the job at time zero. -/
def trc2 : Sys := ⟨(acquire_job trc1.db "j" 0).2, [(1, trcJ)]⟩

/-- Scenario: the run failed and the worker wrote the outcome at time
one, scheduling a retry at time three. -/
def trc3 : Sys :=
  ⟨update_job trc2.db "j"
     (fun _ => outcomeRec trcJ (some (ExecErr.exitFailure "boom")) 1 2) 1,
   []⟩

/-- Scenario: worker 1 re-acquires the failed job at time five, after the
retry time elapsed. -/
def trc4 : Sys := ⟨(acquire_job trc3.db "j" 5).2, [(1, (get_job trc3.db "j").getD trcJ)]⟩

/-- The failed row sitting in the table of trc3, as a literal record. -/
def trcFailedRow : JobRec :=
  { id := "j", command := "boom", state := JobState.failed, attempts := 1,
    max_retries := 2, next_retry_at := some 3, created_at := 0, updated_at := 1,
    completed_at := none, error_message := some "boom" }

/-- Scenario row for the dead letter queue: a job with a single allowed
attempt. -/
def trdJ : JobRec := newJob "d" "x" 1 0

/-- Scenario: the table after enqueueing trdJ. -/
def trd1 : Sys := ⟨[trdJ], []⟩

/-- Scenario: worker 1 has acquired trdJ at time zero. -/
def trd2 : Sys := ⟨(acquire_job trd1.db "d" 0).2, [(1, trdJ)]⟩

/-- Scenario: the only attempt failed at time one, so the job is dead. -/
def trd3 : Sys :=
  ⟨update_job trd2.db "d"
     (fun _ => outcomeRec trdJ (some (ExecErr.exitFailure "x")) 1 2) 1,
   []⟩

/-- Scenario: another job is enqueued while the dead job sits in the
dead letter queue. -/
def trd4 : Sys := ⟨trd3.db ++ [newJob "e" "y" 3 2], trd3.holders⟩

/-- The dead row of the trd scenario as a literal record. -/
def trdDead : JobRec :=
  { id := "d", command := "x", state := JobState.dead, attempts := 1,
    max_retries := 1, next_retry_at := none, created_at := 0, updated_at := 1,
    completed_at := none, error_message := some "x" }

/-! ## Bridging lemmas between the executable conditions and the spec
wording -/

theorem stateAcquirable_iff {st : JobState} :
    stateAcquirable st = true ↔ StateReady st := by
  cases st <;> decide

theorem retryElapsedB_iff {nr : Option Nat} {now : Nat} :
    retryElapsedB nr now = true ↔ RetryElapsed nr now := by
  cases nr with
  | none => simp [retryElapsedB, RetryElapsed]
  | some t => simp [retryElapsedB, RetryElapsed]

theorem readyRowB_iff {now : Nat} {r : JobRec} :
    readyRowB now r = true ↔ AcquireEligible now r := by
  simp [readyRowB, Bool.and_eq_true, stateAcquirable_iff, retryElapsedB_iff, AcquireEligible]

theorem readyRowB_false_of_processing {now : Nat} {r : JobRec}
    (h : r.state = JobState.processing) : readyRowB now r = false := by
  simp [readyRowB, h, stateAcquirable]

theorem readyRowB_false_of_dead {now : Nat} {r : JobRec}
    (h : r.state = JobState.dead) : readyRowB now r = false := by
  simp [readyRowB, h, stateAcquirable]

/-! ## Row uniqueness -/

theorem row_eq_of_id_eq {db : List JobRec} (hu : uniqueIds db)
    {r1 r2 : JobRec} (h1 : r1 ∈ db) (h2 : r2 ∈ db) (hid : r1.id = r2.id) :
    r1 = r2 :=
  List.inj_on_of_nodup_map hu h1 h2 hid

/-! ## Lemmas about acquire_job -/

theorem acquire_fst_iff (db : List JobRec) (id : String) (now : Nat) :
    (acquire_job db id now).1 = true ↔
      ∃ r ∈ db, r.id = id ∧ AcquireEligible now r := by
  simp [acquire_job, List.any_eq_true, Bool.and_eq_true, readyRowB_iff]

theorem acquire_snd_eq (db : List JobRec) (id : String) (now : Nat) :
    (acquire_job db id now).2 =
      db.map (fun r =>
        if r.id = id ∧ AcquireEligible now r then { r with state := JobState.processing }
        else r) := by
  unfold acquire_job
  refine List.map_congr_left (fun r _ => ?_)
  by_cases h : r.id = id ∧ AcquireEligible now r
  · rw [if_pos h]
    have hb : (r.id == id && readyRowB now r) = true := by
      simp [Bool.and_eq_true, h.1, readyRowB_iff.mpr h.2]
    rw [hb]; simp
  · rw [if_neg h]
    have hb : (r.id == id && readyRowB now r) = false := by
      rcases Decidable.not_and_iff_or_not.mp h with hc | hc
      · simp [hc]
      · have : readyRowB now r = false := by
          cases hbr : readyRowB now r with
          | true => exact absurd (readyRowB_iff.mp hbr) hc
          | false => rfl
        simp [this]
    rw [hb]; simp

theorem acquire_noop_of_false (db : List JobRec) (id : String) (now : Nat)
    (h : (acquire_job db id now).1 = false) : (acquire_job db id now).2 = db := by
  unfold acquire_job at h ⊢
  simp only [List.any_eq_false] at h
  conv_rhs => rw [show db = db.map (fun r => r) from (List.map_id db).symm]
  refine List.map_congr_left (fun r hr => ?_)
  simp [h r hr]

theorem acquire_map_field {α : Type} (f : JobRec → α)
    (hf : ∀ r, f { r with state := JobState.processing } = f r)
    (db : List JobRec) (id : String) (now : Nat) :
    ((acquire_job db id now).2).map f = db.map f := by
  unfold acquire_job
  rw [List.map_map]
  refine List.map_congr_left (fun r _ => ?_)
  show f (if r.id == id && readyRowB now r then { r with state := JobState.processing }
          else r) = f r
  split
  · exact hf r
  · rfl

theorem acquire_ids (db : List JobRec) (id : String) (now : Nat) :
    ((acquire_job db id now).2).map (fun r => r.id) = db.map (fun r => r.id) :=
  acquire_map_field (fun r => r.id) (fun _ => rfl) db id now

theorem acquire_updated_at (db : List JobRec) (id : String) (now : Nat) :
    ((acquire_job db id now).2).map (fun r => r.updated_at) =
      db.map (fun r => r.updated_at) :=
  acquire_map_field (fun r => r.updated_at) (fun _ => rfl) db id now

theorem acquire_false_of_processing {db : List JobRec} {id : String} (now : Nat)
    (hu : uniqueIds db) {r0 : JobRec} (h0 : r0 ∈ db) (hid : r0.id = id)
    (hst : r0.state = JobState.processing) :
    (acquire_job db id now).1 = false := by
  cases hb : (acquire_job db id now).1 with
  | false => rfl
  | true =>
    rcases (acquire_fst_iff db id now).mp hb with ⟨r, hr, hrid, hel⟩
    have : r = r0 := row_eq_of_id_eq hu hr h0 (hrid.trans hid.symm)
    subst this
    rcases hel.1 with hp | hp <;> rw [hst] at hp <;> exact JobState.noConfusion hp

theorem mem_acquire_of_untouched {db : List JobRec} {id : String} {now : Nat}
    {r : JobRec} (hr : r ∈ db) (h : (r.id == id && readyRowB now r) = false) :
    r ∈ (acquire_job db id now).2 := by
  unfold acquire_job
  have := List.mem_map_of_mem
    (fun r =>
      if r.id == id && readyRowB now r then { r with state := JobState.processing }
      else r) hr
  simpa [h] using this

theorem mem_acquire_of_eligible {db : List JobRec} {id : String} {now : Nat}
    {r : JobRec} (hr : r ∈ db) (h : (r.id == id && readyRowB now r) = true) :
    { r with state := JobState.processing } ∈ (acquire_job db id now).2 := by
  unfold acquire_job
  have := List.mem_map_of_mem
    (fun r =>
      if r.id == id && readyRowB now r then { r with state := JobState.processing }
      else r) hr
  simpa [h] using this

theorem mem_acquire (db : List JobRec) (id : String) (now : Nat)
    {r' : JobRec} (h : r' ∈ (acquire_job db id now).2) :
    ∃ r ∈ db, r' = r ∨ r' = { r with state := JobState.processing } := by
  unfold acquire_job at h
  rcases List.mem_map.mp h with ⟨r, hr, heq⟩
  refine ⟨r, hr, ?_⟩
  rw [← heq]
  by_cases hc : (r.id == id && readyRowB now r) = true
  · right; simp [hc]
  · left; simp [Bool.eq_false_iff.mpr hc]

/-! ## Lemmas about update_job -/

theorem update_job_ids (db : List JobRec) (id : String) (patch : JobRec → JobRec)
    (now : Nat) (hp : ∀ r, (patch r).id = id) :
    (update_job db id patch now).map (fun r => r.id) = db.map (fun r => r.id) := by
  unfold update_job
  rw [List.map_map]
  refine List.map_congr_left (fun r _ => ?_)
  show (if r.id == id then { patch r with updated_at := now } else r).id = r.id
  split
  · rename_i h
    show (patch r).id = r.id
    rw [hp r]
    exact (beq_iff_eq.mp h).symm
  · rfl

theorem mem_update_job_of_ne {db : List JobRec} {id : String}
    {patch : JobRec → JobRec} {now : Nat} {r : JobRec} (hr : r ∈ db)
    (h : r.id ≠ id) : r ∈ update_job db id patch now := by
  unfold update_job
  have hmem := List.mem_map_of_mem
    (fun r => if r.id == id then { patch r with updated_at := now } else r) hr
  simpa [h] using hmem

theorem mem_update_job_of_eq {db : List JobRec} {id : String}
    {patch : JobRec → JobRec} {now : Nat} {r : JobRec} (hr : r ∈ db)
    (h : r.id = id) : { patch r with updated_at := now } ∈ update_job db id patch now := by
  unfold update_job
  have hmem := List.mem_map_of_mem
    (fun r => if r.id == id then { patch r with updated_at := now } else r) hr
  simpa [h] using hmem

theorem mem_update_job (db : List JobRec) (id : String) (patch : JobRec → JobRec)
    (now : Nat) {r' : JobRec} (h : r' ∈ update_job db id patch now) :
    ∃ r ∈ db, r' = r ∨ (r.id = id ∧ r' = { patch r with updated_at := now }) := by
  unfold update_job at h
  rcases List.mem_map.mp h with ⟨r, hr, heq⟩
  refine ⟨r, hr, ?_⟩
  by_cases hc : r.id = id
  · right
    refine ⟨hc, ?_⟩
    rw [← heq]
    simp [hc]
  · left
    rw [← heq]
    simp [hc]

/-! ## Lemmas about reset_db -/

theorem reset_db_ids (db : List JobRec) (id : String) (now : Nat) :
    (reset_db db id now).map (fun r => r.id) = db.map (fun r => r.id) := by
  unfold reset_db
  rw [List.map_map]
  refine List.map_congr_left (fun r _ => ?_)
  show (if r.id == id && decide (r.state = JobState.dead) then resetRow r now else r).id
        = r.id
  split
  · rfl
  · rfl

theorem reset_db_noop {db : List JobRec} {id : String} (now : Nat)
    (h : ∀ r ∈ db, r.id = id → r.state ≠ JobState.dead) :
    reset_db db id now = db := by
  unfold reset_db
  conv_rhs => rw [show db = db.map (fun r => r) from (List.map_id db).symm]
  refine List.map_congr_left (fun r hr => ?_)
  by_cases hc : r.id = id
  · simp [hc, h r hr hc]
  · simp [hc]

theorem mem_reset_db_of_not_dead {db : List JobRec} {id : String} {now : Nat}
    {r : JobRec} (hr : r ∈ db) (h : r.id = id → r.state ≠ JobState.dead) :
    r ∈ reset_db db id now := by
  unfold reset_db
  have hmem := List.mem_map_of_mem
    (fun r => if r.id == id && decide (r.state = JobState.dead) then resetRow r now else r)
    hr
  by_cases hc : r.id = id
  · simpa [hc, h hc] using hmem
  · simpa [hc] using hmem

theorem mem_reset_db_of_dead {db : List JobRec} {id : String} {now : Nat}
    {r : JobRec} (hr : r ∈ db) (hid : r.id = id) (hst : r.state = JobState.dead) :
    resetRow r now ∈ reset_db db id now := by
  unfold reset_db
  have hmem := List.mem_map_of_mem
    (fun r => if r.id == id && decide (r.state = JobState.dead) then resetRow r now else r)
    hr
  simpa [hid, hst] using hmem

theorem mem_reset_db (db : List JobRec) (id : String) (now : Nat)
    {r' : JobRec} (h : r' ∈ reset_db db id now) :
    ∃ r ∈ db, r' = r ∨ (r.id = id ∧ r.state = JobState.dead ∧ r' = resetRow r now) := by
  unfold reset_db at h
  rcases List.mem_map.mp h with ⟨r, hr, heq⟩
  refine ⟨r, hr, ?_⟩
  by_cases hc : r.id = id
  · by_cases hd : r.state = JobState.dead
    · right
      exact ⟨hc, hd, by rw [← heq]; simp [hc, hd]⟩
    · left
      rw [← heq]; simp [hc, hd]
  · left
    rw [← heq]; simp [hc]

/-! ## Lemmas about create_job and get_job -/

theorem create_job_eq {db db' : List JobRec} {id command : String}
    {max_retries now : Nat}
    (h : create_job db id command max_retries now = some db') :
    db' = db ++ [newJob id command max_retries now] ∧ ∀ r ∈ db, r.id ≠ id := by
  unfold create_job at h
  by_cases hc : db.any (fun r => r.id == id) = true
  · rw [if_pos hc] at h
    exact Option.noConfusion h
  · rw [if_neg hc] at h
    refine ⟨(Option.some.injEq _ _ ▸ h).symm, fun r hr => ?_⟩
    simp only [List.any_eq_true, Bool.not_eq_true] at hc
    push_neg at hc
    intro hbad
    have := hc r hr
    simp [hbad] at this

theorem get_job_eq_none {db : List JobRec} {id : String}
    (h : ∀ r ∈ db, r.id ≠ id) : get_job db id = none := by
  unfold get_job
  have : db.filter (fun r => r.id == id) = [] := by
    rw [List.filter_eq_nil_iff]
    intro r hr
    simp [h r hr]
  rw [this]
  rfl

theorem get_job_mem {db : List JobRec} {id : String} {r : JobRec}
    (h : get_job db id = some r) : r ∈ db ∧ r.id = id := by
  unfold get_job at h
  have hmem : r ∈ db.filter (fun r => r.id == id) := by
    cases hf : db.filter (fun r => r.id == id) with
    | nil => rw [hf] at h; exact Option.noConfusion h
    | cons a tl =>
      rw [hf] at h
      have : a = r := by simpa using h
      exact this ▸ List.mem_cons_self a tl
  have := List.mem_filter.mp hmem
  exact ⟨this.1, by simpa using this.2⟩

/-! ## State facts about the outcome rows -/

theorem mark_for_retry_cases (j : JobRec) (now backoff_base : Nat) :
    (j.attempts + 1 < j.max_retries ∧
      mark_for_retry j now backoff_base =
        { j with attempts := j.attempts + 1, state := JobState.failed,
                 next_retry_at := some (now + backoff_base ^ (j.attempts + 1)) }) ∨
    (¬ j.attempts + 1 < j.max_retries ∧
      mark_for_retry j now backoff_base =
        { j with attempts := j.attempts + 1, state := JobState.dead,
                 next_retry_at := none }) := by
  unfold mark_for_retry should_retry calculate_next_retry
  by_cases h : j.attempts + 1 < j.max_retries
  · left
    exact ⟨h, by simp [h]⟩
  · right
    exact ⟨h, by simp [h]⟩

theorem nrOk_mark_for_retry (j : JobRec) (now backoff_base : Nat) :
    nrOk (mark_for_retry j now backoff_base) := by
  rcases mark_for_retry_cases j now backoff_base with ⟨_, heq⟩ | ⟨_, heq⟩ <;>
    rw [heq] <;> constructor <;> simp

theorem nrOk_outcomeRec (s : JobRec) (res : Option ExecErr) (now backoff_base : Nat) :
    nrOk (outcomeRec s res now backoff_base) := by
  cases res with
  | none =>
    constructor <;> simp [outcomeRec, mark_completed]
  | some e =>
    exact nrOk_mark_for_retry _ now backoff_base

theorem outcomeRec_id (s : JobRec) (res : Option ExecErr) (now backoff_base : Nat) :
    (outcomeRec s res now backoff_base).id = s.id := by
  cases res with
  | none => rfl
  | some e =>
    show (mark_for_retry _ now backoff_base).id = s.id
    rcases mark_for_retry_cases { s with error_message := some (execErrMsg e) }
      now backoff_base with ⟨_, heq⟩ | ⟨_, heq⟩ <;> rw [heq]

/-! ## Preservation of the system invariant -/

theorem uniqueIds_of_map_eq {db db' : List JobRec}
    (h : db'.map (fun r => r.id) = db.map (fun r => r.id)) (hu : uniqueIds db) :
    uniqueIds db' := by
  unfold uniqueIds at *
  rw [h]
  exact hu

theorem inv_init : Inv initSys := by
  refine ⟨?_, ?_, ?_, ?_⟩ <;> simp [initSys, uniqueIds]

theorem inv_step {base : Nat} {σ σ' : Sys} (hInv : Inv σ) (hstep : SStep base σ σ') :
    Inv σ' := by
  obtain ⟨hu, hhold, hdist, hnr⟩ := hInv
  cases hstep with
  | create id command mr now db' hok =>
    obtain ⟨hdb, hfresh⟩ := create_job_eq hok
    subst hdb
    refine ⟨?_, ?_, hdist, ?_⟩
    · unfold uniqueIds at hu ⊢
      rw [List.map_append, List.nodup_append]
      refine ⟨hu, by simp, ?_⟩
      intro a ha hb
      simp only [List.map_cons, List.map_nil, List.mem_singleton] at hb
      rcases List.mem_map.mp ha with ⟨r, hr, hrid⟩
      exact hfresh r hr (by rw [hrid, hb]; rfl)
    · intro p hp
      rcases hhold p hp with ⟨r, hr, hrid, hrs⟩
      exact ⟨r, List.mem_append_left _ hr, hrid, hrs⟩
    · intro r hr
      rcases List.mem_append.mp hr with hr | hr
      · exact hnr r hr
      · simp only [List.mem_singleton] at hr
        subst hr
        exact ⟨by intro h; exact JobState.noConfusion h, fun _ => rfl⟩
  | acquire w s now hfree hok =>
    have hnodup : uniqueIds (acquire_job σ.db s.id now).2 :=
      uniqueIds_of_map_eq (acquire_ids σ.db s.id now) hu
    rcases (acquire_fst_iff σ.db s.id now).mp hok with ⟨r0, hr0, hr0id, hel⟩
    have hr0b : (r0.id == s.id && readyRowB now r0) = true := by
      simp [hr0id, readyRowB_iff.mpr hel]
    have hnew : holderOk (acquire_job σ.db s.id now).2 (w, s) :=
      ⟨{ r0 with state := JobState.processing },
        mem_acquire_of_eligible hr0 hr0b, hr0id, rfl⟩
    have hnosame : ∀ q ∈ σ.holders, q.2.id ≠ s.id := by
      intro q hq hbad
      rcases hhold q hq with ⟨rq, hrq, hrqid, hrqs⟩
      have : rq = r0 := row_eq_of_id_eq hu hrq hr0 (by rw [hrqid, hbad, hr0id])
      rw [this] at hrqs
      rcases hel.1 with hp | hp <;> rw [hrqs] at hp <;> exact JobState.noConfusion hp
    refine ⟨hnodup, ?_, ?_, ?_⟩
    · intro p hp
      rcases List.mem_cons.mp hp with hp | hp
      · subst hp; exact hnew
      · rcases hhold p hp with ⟨rp, hrp, hrpid, hrps⟩
        refine ⟨rp, ?_, hrpid, hrps⟩
        exact mem_acquire_of_untouched hrp
          (by simp [readyRowB_false_of_processing hrps])
    · intro p hp q hq hpq
      rcases List.mem_cons.mp hp with hp | hp <;> rcases List.mem_cons.mp hq with hq | hq
      · rw [hp, hq]
      · subst hp
        exact absurd (hpq.symm) (hnosame q hq)
      · subst hq
        exact absurd hpq (hnosame p hp)
      · exact hdist p hp q hq hpq
    · intro r' hr'
      rcases mem_acquire σ.db s.id now hr' with ⟨r, hr, rfl | rfl⟩
      · exact hnr _ hr
      · exact ⟨by intro h; exact JobState.noConfusion h,
          by rintro (h | h) <;> exact JobState.noConfusion h⟩
  | finish w s res now hheld =>
    rcases hhold _ hheld with ⟨rs, hrs, hrsid, hrss⟩
    have hpatchid : ∀ r : JobRec,
        ((fun _ => outcomeRec s res now base) r).id = s.id :=
      fun _ => outcomeRec_id s res now base
    refine ⟨uniqueIds_of_map_eq (update_job_ids σ.db s.id _ now hpatchid) hu, ?_, ?_, ?_⟩
    · intro p hp
      have hp' := List.mem_filter.mp hp
      have hpw : p.1 ≠ w := by simpa using hp'.2
      have hpmem := hp'.1
      rcases hhold p hpmem with ⟨rp, hrp, hrpid, hrps⟩
      have hpid : p.2.id ≠ s.id := by
        intro hbad
        exact hpw (hdist p hpmem (w, s) hheld hbad)
      exact ⟨rp, mem_update_job_of_ne hrp (by rw [hrpid]; exact hpid), hrpid, hrps⟩
    · intro p hp q hq hpq
      exact hdist p (List.mem_filter.mp hp).1 q (List.mem_filter.mp hq).1 hpq
    · intro r' hr'
      rcases mem_update_job σ.db s.id _ now hr' with ⟨r, hr, rfl | ⟨_, rfl⟩⟩
      · exact hnr _ hr
      · exact nrOk_outcomeRec s res now base
  | reset id now =>
    refine ⟨uniqueIds_of_map_eq (reset_db_ids σ.db id now) hu, ?_, hdist, ?_⟩
    · intro p hp
      rcases hhold p hp with ⟨rp, hrp, hrpid, hrps⟩
      refine ⟨rp, mem_reset_db_of_not_dead hrp ?_, hrpid, hrps⟩
      intro _ hbad
      rw [hrps] at hbad
      exact JobState.noConfusion hbad
    · intro r' hr'
      rcases mem_reset_db σ.db id now hr' with ⟨r, hr, rfl | ⟨_, _, rfl⟩⟩
      · exact hnr _ hr
      · exact ⟨by intro h; exact JobState.noConfusion h, fun _ => rfl⟩

theorem inv_reach {base : Nat} {σ : Sys} (h : Reach base σ) : Inv σ := by
  induction h with
  | refl => exact inv_init
  | tail _ hstep ih => exact inv_step ih hstep

/-! ## Dead rows persist through the lifecycle steps -/

theorem coreStep_sstep {base : Nat} {σ σ' : Sys} (h : CoreStep base σ σ') :
    SStep base σ σ' := by
  cases h with
  | create id command mr now db' hok => exact SStep.create σ id command mr now db' hok
  | acquire w s now hfree hok => exact SStep.acquire σ w s now hfree hok
  | finish w s res now hheld => exact SStep.finish σ w s res now hheld

theorem dead_persists_step {base : Nat} {σ σ' : Sys} (hInv : Inv σ)
    (hstep : CoreStep base σ σ') {r : JobRec} (hr : r ∈ σ.db)
    (hdead : r.state = JobState.dead) : r ∈ σ'.db := by
  obtain ⟨hu, hhold, hdist, hnr⟩ := hInv
  cases hstep with
  | create id command mr now db' hok =>
    obtain ⟨hdb, _⟩ := create_job_eq hok
    subst hdb
    exact List.mem_append_left _ hr
  | acquire w s now hfree hok =>
    exact mem_acquire_of_untouched hr (by simp [readyRowB_false_of_dead hdead])
  | finish w s res now hheld =>
    rcases hhold _ hheld with ⟨rp, hrp, hrpid, hrps⟩
    refine mem_update_job_of_ne hr ?_
    intro hbad
    have heq : r = rp := row_eq_of_id_eq hu hr hrp (by rw [hbad, hrpid])
    rw [← heq, hdead] at hrps
    exact JobState.noConfusion hrps

/-! ## Lemmas about get_pending_jobs -/

theorem mem_get_pending {db : List JobRec} {limit now : Nat} {r : JobRec}
    (h : r ∈ get_pending_jobs db limit now) : r ∈ db ∧ AcquireEligible now r := by
  unfold get_pending_jobs at h
  have h1 := List.take_subset limit _ h
  have h2 := (List.perm_insertionSort createdLe _).subset h1
  have h3 := List.mem_filter.mp h2
  exact ⟨h3.1, readyRowB_iff.mp h3.2⟩

theorem get_pending_sorted (db : List JobRec) (limit now : Nat) :
    List.Sorted createdLe (get_pending_jobs db limit now) :=
  List.Pairwise.sublist (List.take_sublist limit _)
    (List.sorted_insertionSort createdLe _)

theorem get_pending_length (db : List JobRec) (limit now : Nat) :
    (get_pending_jobs db limit now).length =
      min limit (db.filter (readyRowB now)).length := by
  unfold get_pending_jobs
  rw [List.length_take, (List.perm_insertionSort createdLe _).length_eq]

theorem mem_get_pending_of_ready {db : List JobRec} {limit now : Nat}
    (hle : (db.filter (readyRowB now)).length ≤ limit) {r : JobRec} (hr : r ∈ db)
    (hel : AcquireEligible now r) : r ∈ get_pending_jobs db limit now := by
  unfold get_pending_jobs
  rw [List.take_of_length_le
    (by rw [(List.perm_insertionSort createdLe _).length_eq]; exact hle)]
  exact (List.perm_insertionSort createdLe _).mem_iff.mpr
    (List.mem_filter.mpr ⟨hr, readyRowB_iff.mpr hel⟩)

/-! ## Generic runs of the worker loop -/

theorem worker_success_fresh (id cmd : String) (mr t0 now base : Nat)
    (behav : String → RunResult) (rt : Nat) (out errout : String)
    (hb : behav cmd = RunResult.completes rt 0 out errout) :
    worker_iteration behav base now [newJob id cmd mr t0] =
      [{ id := id, command := cmd, state := JobState.completed, attempts := 0,
         max_retries := mr, next_retry_at := none, created_at := t0,
         updated_at := now, completed_at := some now, error_message := none }] := by
  simp [worker_iteration, get_pending_jobs, readyRowB, stateAcquirable, retryElapsedB,
    List.insertionSort, List.orderedInsert, acquire_job, newJob, hb, execute,
    timeoutTruthy, completedOutcome, update_job, mark_completed]

theorem worker_fail_fresh (id cmd : String) (t0 t1 : Nat)
    (behav : String → RunResult) (rt : Nat) (rc : Int) (out errout : String)
    (hb : behav cmd = RunResult.completes rt rc out errout) (hrc : rc ≠ 0) :
    worker_iteration behav 2 t1 [newJob id cmd 2 t0] =
      [{ id := id, command := cmd, state := JobState.failed, attempts := 1,
         max_retries := 2, next_retry_at := some (t1 + 2), created_at := t0,
         updated_at := t1, completed_at := none,
         error_message := some (exitMsg rc out errout) }] := by
  simp [worker_iteration, get_pending_jobs, readyRowB, stateAcquirable, retryElapsedB,
    List.insertionSort, List.orderedInsert, acquire_job, newJob, hb, execute,
    timeoutTruthy, completedOutcome, update_job, mark_failed, mark_for_retry,
    should_retry, calculate_next_retry, execErrMsg, hrc]

theorem worker_fail_second (id cmd em : String) (t0 t1 t2 : Nat)
    (behav : String → RunResult) (rt : Nat) (rc : Int) (out errout : String)
    (hb : behav cmd = RunResult.completes rt rc out errout) (hrc : rc ≠ 0)
    (ht : t1 + 2 ≤ t2) :
    worker_iteration behav 2 t2
      [{ id := id, command := cmd, state := JobState.failed, attempts := 1,
         max_retries := 2, next_retry_at := some (t1 + 2), created_at := t0,
         updated_at := t1, completed_at := none, error_message := some em }] =
      [{ id := id, command := cmd, state := JobState.dead, attempts := 2,
         max_retries := 2, next_retry_at := none, created_at := t0,
         updated_at := t2, completed_at := none,
         error_message := some (exitMsg rc out errout) }] := by
  simp [worker_iteration, get_pending_jobs, readyRowB, stateAcquirable, retryElapsedB,
    List.insertionSort, List.orderedInsert, acquire_job, hb, execute, ht,
    timeoutTruthy, completedOutcome, update_job, mark_failed, mark_for_retry,
    should_retry, calculate_next_retry, execErrMsg, hrc]

/-! ## Reachability of the concrete scenarios -/

theorem step_trc01 : SStep 2 initSys trc1 :=
  SStep.create initSys "j" "boom" 2 0 [trcJ] (by decide)

theorem step_trc12 : SStep 2 trc1 trc2 := by
  have h := @SStep.acquire 2 trc1 1 trcJ 0 (by simp [trc1]) (by decide)
  exact h

theorem step_trc23 : SStep 2 trc2 trc3 := by
  have h := @SStep.finish 2 trc2 1 trcJ
    (some (ExecErr.exitFailure "boom")) 1 (by simp [trc2])
  convert h using 1

theorem step_trc34 : SStep 2 trc3 trc4 := by
  have h := @SStep.acquire 2 trc3 1 ((get_job trc3.db "j").getD trcJ) 5
    (by simp [trc3]) (by decide)
  convert h using 1

theorem reach_trc3 : Reach 2 trc3 :=
  Relation.ReflTransGen.tail
    (Relation.ReflTransGen.tail
      (Relation.ReflTransGen.tail Relation.ReflTransGen.refl step_trc01)
      step_trc12)
    step_trc23

theorem reach_trc4 : Reach 2 trc4 :=
  Relation.ReflTransGen.tail reach_trc3 step_trc34

theorem step_trd01 : SStep 2 initSys trd1 :=
  SStep.create initSys "d" "x" 1 0 [trdJ] (by decide)

theorem step_trd12 : SStep 2 trd1 trd2 := by
  have h := @SStep.acquire 2 trd1 1 trdJ 0 (by simp [trd1]) (by decide)
  exact h

theorem step_trd23 : SStep 2 trd2 trd3 := by
  have h := @SStep.finish 2 trd2 1 trdJ
    (some (ExecErr.exitFailure "x")) 1 (by simp [trd2])
  convert h using 1

theorem reach_trd3 : Reach 2 trd3 :=
  Relation.ReflTransGen.tail
    (Relation.ReflTransGen.tail
      (Relation.ReflTransGen.tail Relation.ReflTransGen.refl step_trd01)
      step_trd12)
    step_trd23

theorem step_trd34 : CoreStep 2 trd3 trd4 :=
  CoreStep.create trd3 "e" "y" 3 2 (trd3.db ++ [newJob "e" "y" 3 2]) (by decide)

/-! ## Claims -/

/-- C1: acquire_job transitions the row with the given id to processing
if and only if, at the moment of the update, the row is pending or failed
and its next_retry_at is null or not after the current time; the returned
flag is true exactly when such a transition occurred (false in particular
for unknown ids), and when the predicate fails no row changes. -/
theorem C1_acquire_spec (db : List JobRec) (id : String) (now : Nat) :
    ((acquire_job db id now).1 = true ↔
      ∃ r ∈ db, r.id = id ∧ AcquireEligible now r) ∧
    ((acquire_job db id now).2 =
      db.map (fun r =>
        if r.id = id ∧ AcquireEligible now r then { r with state := JobState.processing }
        else r)) ∧
    ((acquire_job db id now).1 = false → (acquire_job db id now).2 = db) :=
  ⟨acquire_fst_iff db id now, acquire_snd_eq db id now, acquire_noop_of_false db id now⟩

theorem C1_acquire_spec_witness :
    (acquire_job [newJob "w" "c" 3 0] "w" 0).1 = true :=
  (C1_acquire_spec [newJob "w" "c" 3 0] "w" 0).1.mpr
    ⟨newJob "w" "c" 3 0, by decide, rfl, by decide⟩

/-- C2: a processing row can never be acquired (so two serialized
acquisition attempts on the same id can never both succeed, and after a
successful acquisition no further one succeeds until the job leaves
processing), and in every reachable system state no two workers hold the
same job id. -/
theorem C2_exclusive (db : List JobRec) (id : String) (now1 now2 : Nat)
    (hu : uniqueIds db) :
    ((∃ r ∈ db, r.id = id ∧ r.state = JobState.processing) →
      (acquire_job db id now1).1 = false) ∧
    ((acquire_job db id now1).1 = true →
      (acquire_job (acquire_job db id now1).2 id now2).1 = false) ∧
    (∀ (base : Nat) (σ : Sys), Reach base σ → ∀ p ∈ σ.holders, ∀ q ∈ σ.holders,
      p.2.id = q.2.id → p.1 = q.1) := by
  refine ⟨?_, ?_, ?_⟩
  · rintro ⟨r0, h0, hid, hst⟩
    exact acquire_false_of_processing now1 hu h0 hid hst
  · intro hok
    rcases (acquire_fst_iff db id now1).mp hok with ⟨r0, hr0, hr0id, hel⟩
    have hb : (r0.id == id && readyRowB now1 r0) = true := by
      simp [hr0id, readyRowB_iff.mpr hel]
    have hmem := mem_acquire_of_eligible hr0 hb
    exact acquire_false_of_processing now2
      (uniqueIds_of_map_eq (acquire_ids db id now1) hu) hmem hr0id rfl
  · intro base σ hσ
    exact (inv_reach hσ).2.2.1

theorem C2_exclusive_witness :
    (acquire_job [{ newJob "a" "c" 3 0 with state := JobState.processing }] "a" 1).1
      = false :=
  (C2_exclusive [{ newJob "a" "c" 3 0 with state := JobState.processing }] "a" 1 2
    (by decide)).1
    ⟨{ newJob "a" "c" 3 0 with state := JobState.processing }, by decide, rfl, rfl⟩

/-- C3 counterexample: with max_retries 2 and a command that always
fails, the job is already dead with attempts 2 after two failing
executions, so reaching the dead state does not take three execution
attempts. -/
theorem C3_counterexample :
    ¬ (∀ r ∈ worker_iteration alwaysFails 2 120
          (worker_iteration alwaysFails 2 110 [newJob "j1" "boom" 2 100]),
        r.state = JobState.dead → r.attempts = 3) := by
  decide

/-- C3 amended: a job with max_retries 2 whose command always fails is
dead with attempts 2 after two worker iterations (initial attempt plus
one retry, the second once the backoff elapsed), and a dead row survives
every lifecycle step other than the explicit DLQ reset unchanged. -/
theorem C3_dead_after_two :
    (∀ (id cmd : String) (t0 t1 t2 : Nat) (behav : String → RunResult)
        (rt : Nat) (rc : Int) (out errout : String),
        behav cmd = RunResult.completes rt rc out errout → rc ≠ 0 → t1 + 2 ≤ t2 →
        worker_iteration behav 2 t2
            (worker_iteration behav 2 t1 [newJob id cmd 2 t0]) =
          [{ id := id, command := cmd, state := JobState.dead, attempts := 2,
             max_retries := 2, next_retry_at := none, created_at := t0,
             updated_at := t2, completed_at := none,
             error_message := some (exitMsg rc out errout) }]) ∧
    (∀ (base : Nat) (σ σ' : Sys), Reach base σ → CoreStep base σ σ' →
        ∀ r ∈ σ.db, r.state = JobState.dead → r ∈ σ'.db) := by
  constructor
  · intro id cmd t0 t1 t2 behav rt rc out errout hb hrc ht
    rw [worker_fail_fresh id cmd t0 t1 behav rt rc out errout hb hrc]
    exact worker_fail_second id cmd (exitMsg rc out errout) t0 t1 t2 behav rt rc
      out errout hb hrc ht
  · intro base σ σ' hσ hstep r hr hdead
    exact dead_persists_step (inv_reach hσ) hstep hr hdead

theorem C3_dead_after_two_witness :
    (worker_iteration alwaysFails 2 120
        (worker_iteration alwaysFails 2 110 [newJob "j1" "boom" 2 100]) =
      [{ id := "j1", command := "boom", state := JobState.dead, attempts := 2,
         max_retries := 2, next_retry_at := none, created_at := 100,
         updated_at := 120, completed_at := none,
         error_message := some (exitMsg 1 "" "boom") }]) ∧
    trdDead ∈ trd4.db :=
  ⟨C3_dead_after_two.1 "j1" "boom" 100 110 120 alwaysFails 1 1 "" "boom" rfl
      (by decide) (by decide),
   C3_dead_after_two.2 2 trd3 trd4 reach_trd3 step_trd34 trdDead (by decide) rfl⟩

/-- C4 counterexample: a pending job whose command succeeds is completed
with completed_at set after one worker iteration, but its attempts
counter is 0, not 1, because a successful run does not increment it. -/
theorem C4_counterexample :
    ¬ (∀ r ∈ worker_iteration (fun _ => RunResult.completes 1 0 "hi" "") 2 50
          [newJob "t1" "echo hi" 3 40],
        r.state = JobState.completed ∧ r.completed_at ≠ none ∧ r.attempts = 1) := by
  decide

/-- C4 amended: after one worker iteration on a freshly enqueued job
whose command exits with code zero, the job is completed with
completed_at set to the iteration time, and attempts equals 0 (only
failures increment the counter). -/
theorem C4_success_iteration (id cmd : String) (mr t0 now base : Nat)
    (behav : String → RunResult) (rt : Nat) (out errout : String)
    (hb : behav cmd = RunResult.completes rt 0 out errout) :
    worker_iteration behav base now [newJob id cmd mr t0] =
      [{ id := id, command := cmd, state := JobState.completed, attempts := 0,
         max_retries := mr, next_retry_at := none, created_at := t0,
         updated_at := now, completed_at := some now, error_message := none }] :=
  worker_success_fresh id cmd mr t0 now base behav rt out errout hb

theorem C4_success_iteration_witness :
    worker_iteration (fun _ => RunResult.completes 1 0 "hi" "") 2 50
        [newJob "t1" "echo hi" 3 40] =
      [{ id := "t1", command := "echo hi", state := JobState.completed, attempts := 0,
         max_retries := 3, next_retry_at := none, created_at := 40,
         updated_at := 50, completed_at := some 50, error_message := none }] :=
  C4_success_iteration "t1" "echo hi" 3 40 50 2
    (fun _ => RunResult.completes 1 0 "hi" "") 1 "hi" "" rfl

/-- C5 counterexample: acquiring a failed job whose retry time elapsed
leaves next_retry_at set while the state is processing, so in a reachable
state the claimed equivalence between a set next_retry_at and the failed
state is false. -/
theorem C5_counterexample :
    ¬ (∀ (base : Nat) (σ : Sys), Reach base σ → ∀ r ∈ σ.db,
        (r.next_retry_at ≠ none ↔ r.state = JobState.failed)) := by
  intro h
  have hc := h 2 trc4 reach_trc4
  revert hc
  decide

/-- C5 amended: in every reachable state a failed row carries a retry
time and pending and dead rows carry none; the full equivalence fails
because a row acquired out of the failed state keeps its stale retry time
while processing and after completion. -/
theorem C5_retry_time_invariant (base : Nat) (σ : Sys) (hσ : Reach base σ) :
    ∀ r ∈ σ.db,
      (r.state = JobState.failed → r.next_retry_at ≠ none) ∧
      ((r.state = JobState.pending ∨ r.state = JobState.dead) →
        r.next_retry_at = none) :=
  (inv_reach hσ).2.2.2

theorem C5_retry_time_invariant_witness :
    (trcFailedRow.state = JobState.failed → trcFailedRow.next_retry_at ≠ none) ∧
    ((trcFailedRow.state = JobState.pending ∨ trcFailedRow.state = JobState.dead) →
      trcFailedRow.next_retry_at = none) :=
  C5_retry_time_invariant 2 trc3 reach_trc3 trcFailedRow (by decide)

/-- C6 counterexample: reset_job_for_retry on a pending job mutates
nothing but returns the unchanged job record, not a not-found or failure
signal. -/
theorem C6_counterexample :
    (reset_job_for_retry [newJob "p" "cmd" 3 0] "p" 5).2 = [newJob "p" "cmd" 3 0] ∧
    (reset_job_for_retry [newJob "p" "cmd" 3 0] "p" 5).1 =
      some (newJob "p" "cmd" 3 0) := by
  decide

/-- C6 amended: reset_job_for_retry resets a row (state pending, attempts
0, retry time and error cleared) only when its state is dead; for an id
whose row is not dead it mutates nothing, returning the unchanged record,
and it returns none exactly for unknown ids. -/
theorem C6_reset_guard (db : List JobRec) (id : String) (now : Nat) :
    ((∀ r ∈ db, r.id = id → r.state ≠ JobState.dead) →
        (reset_job_for_retry db id now).2 = db ∧
        (reset_job_for_retry db id now).1 = get_job db id) ∧
    ((∀ r ∈ db, r.id ≠ id) → (reset_job_for_retry db id now).1 = none) ∧
    (∀ r ∈ db, r.id = id → r.state = JobState.dead →
        resetRow r now ∈ (reset_job_for_retry db id now).2) ∧
    (∀ r ∈ db, (r.id = id → r.state ≠ JobState.dead) →
        r ∈ (reset_job_for_retry db id now).2) := by
  refine ⟨?_, ?_, ?_, ?_⟩
  · intro h
    have hno := reset_db_noop now h
    unfold reset_job_for_retry
    rw [hno]
    exact ⟨rfl, rfl⟩
  · intro h
    show get_job (reset_db db id now) id = none
    refine get_job_eq_none ?_
    intro r' hr'
    rcases mem_reset_db db id now hr' with ⟨r, hr, rfl | ⟨hid, _, rfl⟩⟩
    · exact h _ hr
    · exact h r hr
  · intro r hr hid hst
    exact mem_reset_db_of_dead hr hid hst
  · intro r hr h
    exact mem_reset_db_of_not_dead hr h

theorem C6_reset_guard_witness :
    resetRow trdDead 7 ∈ (reset_job_for_retry [trdDead] "d" 7).2 :=
  (C6_reset_guard [trdDead] "d" 7).2.2.1 trdDead (by decide) rfl rfl

/-- C7 counterexample: acquire_job transitions the job to processing at
time 5, yet the resulting row still carries updated_at 0, so not every
mutating operation refreshes updated_at. -/
theorem C7_counterexample :
    (acquire_job [newJob "j" "c" 3 0] "j" 5).1 = true ∧
    (acquire_job [newJob "j" "c" 3 0] "j" 5).2 =
      [{ newJob "j" "c" 3 0 with state := JobState.processing }] := by
  decide

/-- C7 amended: update_job and reset_job_for_retry stamp the rows they
touch with the current time, while acquire_job never changes any
updated_at column. -/
theorem C7_updated_at (db : List JobRec) (id : String) (patch : JobRec → JobRec)
    (now : Nat) :
    ((acquire_job db id now).2.map (fun r => r.updated_at) =
      db.map (fun r => r.updated_at)) ∧
    (∀ r ∈ db, r.id = id →
      { patch r with updated_at := now } ∈ update_job db id patch now) ∧
    (∀ r ∈ db, r.id = id → r.state = JobState.dead →
      resetRow r now ∈ reset_db db id now ∧ (resetRow r now).updated_at = now) := by
  refine ⟨acquire_updated_at db id now, ?_, ?_⟩
  · intro r hr hid
    exact mem_update_job_of_eq hr hid
  · intro r hr hid hst
    exact ⟨mem_reset_db_of_dead hr hid hst, rfl⟩

theorem C7_updated_at_witness :
    { newJob "u" "c" 3 0 with updated_at := 9 } ∈
      update_job [newJob "u" "c" 3 0] "u" (fun r => r) 9 :=
  (C7_updated_at [newJob "u" "c" 3 0] "u" (fun r => r) 9).2.1 (newJob "u" "c" 3 0)
    (by decide) rfl

/-- C8: get_pending_jobs returns only jobs that are pending or failed
with null or elapsed retry time, sorted by created_at ascending and
truncated to the limit; within the limit every ready job is returned; a
failed job with a future retry time is never returned (and by the
inclusion part it is returned once the clock passes the retry time). -/
theorem C8_ready_query (db : List JobRec) (limit now : Nat) :
    (∀ r ∈ get_pending_jobs db limit now, r ∈ db ∧ AcquireEligible now r) ∧
    List.Sorted createdLe (get_pending_jobs db limit now) ∧
    (get_pending_jobs db limit now).length =
      min limit (db.filter (readyRowB now)).length ∧
    ((db.filter (readyRowB now)).length ≤ limit →
      ∀ r ∈ db, AcquireEligible now r → r ∈ get_pending_jobs db limit now) ∧
    (∀ r ∈ db, r.state = JobState.failed → ∀ t, r.next_retry_at = some t →
      now < t → r ∉ get_pending_jobs db limit now) := by
  refine ⟨fun r hr => mem_get_pending hr, get_pending_sorted db limit now,
    get_pending_length db limit now,
    fun hle r hr hel => mem_get_pending_of_ready hle hr hel, ?_⟩
  intro r hr hst t hnr hlt hmem
  rcases (mem_get_pending hmem).2 with ⟨_, hnone | ⟨u, hu, hule⟩⟩
  · rw [hnr] at hnone
    exact Option.noConfusion hnone
  · rw [hnr] at hu
    have htu : t = u := Option.some.inj hu
    rw [← htu] at hule
    exact absurd hule (Nat.not_le.mpr hlt)

theorem C8_ready_query_witness :
    trcFailedRow ∈ get_pending_jobs [trcFailedRow] 1 5 :=
  (C8_ready_query [trcFailedRow] 1 5).2.2.2.1 (by decide) trcFailedRow (by decide)
    (by decide)

/-- C9: on a retryable failure the job is rescheduled at now plus
backoff_base to the power of the post-increment attempt count, uncapped
and without jitter; with base 2 the delay after the first, second and
third failure is 2, 4 and 8 seconds. -/
theorem C9_backoff (j : JobRec) (now backoff_base : Nat) :
    calculate_next_retry now (j.attempts + 1) backoff_base =
      now + backoff_base ^ (j.attempts + 1) ∧
    (j.attempts + 1 < j.max_retries →
      mark_for_retry j now backoff_base =
        { j with attempts := j.attempts + 1, state := JobState.failed,
                 next_retry_at := some (now + backoff_base ^ (j.attempts + 1)) }) ∧
    (backoff_base = 2 → j.attempts = 0 → 1 < j.max_retries →
      (mark_for_retry j now backoff_base).next_retry_at = some (now + 2)) ∧
    (backoff_base = 2 → j.attempts = 1 → 2 < j.max_retries →
      (mark_for_retry j now backoff_base).next_retry_at = some (now + 4)) ∧
    (backoff_base = 2 → j.attempts = 2 → 3 < j.max_retries →
      (mark_for_retry j now backoff_base).next_retry_at = some (now + 8)) := by
  have hfail : j.attempts + 1 < j.max_retries →
      mark_for_retry j now backoff_base =
        { j with attempts := j.attempts + 1, state := JobState.failed,
                 next_retry_at := some (now + backoff_base ^ (j.attempts + 1)) } := by
    intro h
    rcases mark_for_retry_cases j now backoff_base with ⟨_, heq⟩ | ⟨hn, _⟩
    · exact heq
    · exact absurd h hn
  refine ⟨rfl, hfail, ?_, ?_, ?_⟩
  · rintro rfl hat hlt
    rw [hfail (by rw [hat]; exact hlt), hat]
    norm_num
  · rintro rfl hat hlt
    rw [hfail (by rw [hat]; exact hlt), hat]
    norm_num
  · rintro rfl hat hlt
    rw [hfail (by rw [hat]; exact hlt), hat]
    norm_num

theorem C9_backoff_witness :
    (mark_for_retry (newJob "b" "c" 3 6) 10 2).next_retry_at = some 12 :=
  (C9_backoff (newJob "b" "c" 3 6) 10 2).2.2.1 rfl rfl (by decide)

/-- C10: the worker loop calls execute with no timeout, under which the
timeout branch is unreachable: execute without a timeout never reports a
timedOut outcome, a command that never terminates yields no outcome at
all (the call blocks), and a worker iteration whose polled job hangs
stops at the acquisition result, writing no outcome row. -/
theorem C10_no_timeout :
    (∀ (cmd : String) (b : RunResult) (t : Nat),
        execute cmd b none ≠ some (some (ExecErr.timedOut t))) ∧
    (∀ cmd : String, execute cmd RunResult.hangs none = none) ∧
    (∀ (behav : String → RunResult) (base now : Nat) (db : List JobRec)
        (jd : JobRec) (tl : List JobRec),
        get_pending_jobs db 1 now = jd :: tl →
        behav jd.command = RunResult.hangs →
        worker_iteration behav base now db = (acquire_job db jd.id now).2) := by
  refine ⟨?_, ?_, ?_⟩
  · intro cmd b t
    cases b with
    | completes rt rc out errout =>
      simp only [execute, timeoutTruthy, Bool.false_eq_true, if_false,
        completedOutcome]
      split
      · intro h
        exact Option.noConfusion (Option.some.inj h)
      · intro h
        exact ExecErr.noConfusion (Option.some.inj (Option.some.inj h))
    | hangs =>
      simp [execute, timeoutTruthy]
    | raisesNotFound =>
      intro h
      exact ExecErr.noConfusion (Option.some.inj (Option.some.inj h))
    | raisesOther m =>
      intro h
      exact ExecErr.noConfusion (Option.some.inj (Option.some.inj h))
  · intro cmd
    rfl
  · intro behav base now db jd tl hpoll hb
    unfold worker_iteration
    rw [hpoll]
    simp [hb, execute, timeoutTruthy]

theorem C10_no_timeout_witness :
    worker_iteration (fun _ => RunResult.hangs) 2 5 [newJob "h" "spin" 3 0] =
      (acquire_job [newJob "h" "spin" 3 0] "h" 5).2 :=
  C10_no_timeout.2.2 (fun _ => RunResult.hangs) 2 5 [newJob "h" "spin" 3 0]
    (newJob "h" "spin" 3 0) [] (by decide) rfl

end QueueCTL
